import Mathlib

/-!
Verification of the report workflow (`src/cmds/core/report.py`): the message
sanitizer, the attachment filter, the DM evidence-collection loop, and the
two-phase delivery to the moderation channel, with its exception handling.
Strings are embedded as `List Char`; Python's `str.lower` is embedded as
`Char.toLower` mapped over the characters (all tokens involved are ASCII).
-/

/-- One uploaded attachment, as the code uses it: only the filename is
inspected (`attachment.filename`). -/
structure Attachment where
  filename : List Char
deriving DecidableEq

/-- A DM message as seen by the `check` predicate and the loop body:
authorship and channel flags, text content, attachments. -/
structure Message where
  authorIsReporter : Bool
  channelIsDm : Bool
  content : List Char
  attachments : List Attachment
deriving DecidableEq

/-- The `check` closure (report.py lines 79-87): the message must be from the
reporter, in the DM channel, and carry an attachment or say `done`. -/
def check (m : Message) : Bool :=
  m.authorIsReporter && m.channelIsDm &&
    (decide (0 < m.attachments.length) ||
      decide (m.content.map Char.toLower = "done".toList))

/-- The attachment filter (report.py line 101):
`any(attachment.filename.lower().endswith(ext) for ext in ['png', 'jpg', 'jpeg', 'gif'])`. -/
def isAcceptable (a : Attachment) : Bool :=
  ["png".toList, "jpg".toList, "jpeg".toList, "gif".toList].any
    fun ext => ext.isSuffixOf (a.filename.map Char.toLower)

/-- The case-insensitive literal replacement performed by
`re.sub(pattern, repl, s, flags=re.IGNORECASE)` for a literal pattern:
left-to-right scan, each non-overlapping occurrence (compared after
lower-casing) replaced, all other characters copied. -/
def replaceCI (pat repl : List Char) : List Char → List Char
  | [] => []
  | c :: rest =>
    if ((c :: rest).take pat.length).map Char.toLower = pat then
      repl ++ replaceCI pat repl (rest.drop (pat.length - 1))
    else
      c :: replaceCI pat repl rest
termination_by l => l.length
decreasing_by
  all_goals simp only [List.length_drop, List.length_cons]
  all_goals omega

def patEveryone : List Char := "@everyone".toList

def repEveryone : List Char := "[at everyone]".toList

def patHere : List Char := "@here".toList

def repHere : List Char := "[at here]".toList

/-- `sanitize_message` (report.py lines 17-23): replace `@everyone` first,
then `@here`, both case-insensitively. -/
def sanitize_message (l : List Char) : List Char :=
  replaceCI patHere repHere (replaceCI patEveryone repEveryone l)

/-- Single-pass scanner replacing, at each position, a case-insensitive
occurrence of `@everyone` or `@here` (they can never both start at the same
position), copying every other character. This follows the spec's wording of
the sanitizer contract; it is proved equal to `sanitize_message`. -/
def sanitizeSpec : List Char → List Char
  | [] => []
  | c :: rest =>
    if ((c :: rest).take 9).map Char.toLower = patEveryone then
      repEveryone ++ sanitizeSpec (rest.drop 8)
    else if ((c :: rest).take 5).map Char.toLower = patHere then
      repHere ++ sanitizeSpec (rest.drop 4)
    else
      c :: sanitizeSpec rest
termination_by l => l.length
decreasing_by
  all_goals simp only [List.length_drop, List.length_cons]
  all_goals omega

/-- Spec rendering of the sanitizer contract: the output replaces every
case-insensitive occurrence of the mass-mention token for "everyone" with
`[at everyone]` and of the token for "here" with `[at here]`, and keeps every
other character byte-identical (a character is kept only where no occurrence
of either token starts). -/
inductive SpecSanitizes : List Char → List Char → Prop where
  | nil : SpecSanitizes [] []
  | replaceEveryone (p rest out : List Char) :
      p.map Char.toLower = "@everyone".toList →
      SpecSanitizes rest out →
      SpecSanitizes (p ++ rest) ("[at everyone]".toList ++ out)
  | replaceHere (p rest out : List Char) :
      p.map Char.toLower = "@here".toList →
      SpecSanitizes rest out →
      SpecSanitizes (p ++ rest) ("[at here]".toList ++ out)
  | keep (c : Char) (rest out : List Char) :
      (¬ ∃ p s, c :: rest = p ++ s ∧ p.map Char.toLower = "@everyone".toList) →
      (¬ ∃ p s, c :: rest = p ++ s ∧ p.map Char.toLower = "@here".toList) →
      SpecSanitizes rest out →
      SpecSanitizes (c :: rest) (c :: out)

/-- A DM notice sent to the reporter during or after the session. -/
inductive DmNotice where
  | prompt
  | rejection
  | ack (n : Nat)
  | timeUp
  | success (text : List Char)
deriving DecidableEq

/-- The moderation embed (report.py lines 124-143): description names the
reporter, one field holds the (sanitized) report text, an optional field the
reported user, an optional field the attachment count, footer the reporter id. -/
structure Embed where
  fromReporterId : Nat
  contentField : List Char
  reportedUser : Option Nat
  attachCountField : Option Nat
  footerReporterId : Nat
deriving DecidableEq

/-- An observable effect of the handler: an ephemeral response, a DM send, a
moderation-channel send (embed or files), or a logged error. -/
inductive Ev where
  | respond (text : List Char)
  | dmSend (n : DmNotice)
  | modEmbed (e : Embed)
  | modFiles (files : List Attachment)
  | logError (reporterId : Nat) (detail : List Char)
deriving DecidableEq

/-- One iteration's outcome of `bot.wait_for("message", timeout=60.0, check=check)`:
either a qualifying message arrived or the 60-second window elapsed. -/
inductive LoopEvent where
  | timeout
  | msg (m : Message)
deriving DecidableEq

/-- The collection loop (report.py lines 89-121), driven by the sequence of
wait outcomes. Returns the final `images` list, the DM notices sent, and
whether the loop exited (`done` token or timeout). -/
def runLoop : List Attachment → List LoopEvent → List Attachment × List Ev × Bool
  | images, [] => (images, [], false)
  | images, LoopEvent.timeout :: _ =>
      if images.isEmpty then (images, [], true)
      else (images, [Ev.dmSend DmNotice.timeUp], true)
  | images, LoopEvent.msg m :: rest =>
      if m.content.map Char.toLower = "done".toList then (images, [], true)
      else if (m.attachments.filter isAcceptable).isEmpty && !m.attachments.isEmpty then
        ((runLoop images rest).1,
          Ev.dmSend DmNotice.rejection :: (runLoop images rest).2.1,
          (runLoop images rest).2.2)
      else
        ((runLoop (images ++ m.attachments.filter isAcceptable) rest).1,
          Ev.dmSend (DmNotice.ack (m.attachments.filter isAcceptable).length) ::
            (runLoop (images ++ m.attachments.filter isAcceptable) rest).2.1,
          (runLoop (images ++ m.attachments.filter isAcceptable) rest).2.2)

/-- An exception raised by a send: `discord.Forbidden` or any other
`Exception` (with its message detail). -/
inductive Exc where
  | forbidden
  | other (detail : List Char)
deriving DecidableEq

/-- Which of the two moderation-channel sends raises, if any. -/
structure FailureModel where
  phase1Fail : Option Exc
  phase2Fail : Option Exc
deriving DecidableEq

def noFail : FailureModel := ⟨none, none⟩

/-- The final DM text (report.py lines 153-156): the count line is appended
only when `images` is non-empty. -/
def successText (images : List Attachment) : List Char :=
  "✅ Your report has been sent to the moderators!\n".toList ++
    (if images.isEmpty then [] else
      "📎 Included ".toList ++ (Nat.repr images.length).toList ++ " image".toList ++
        (if images.length != 1 then ['s'] else []))

def mkEmbed (rid : Nat) (san : List Char) (user : Option Nat)
    (images : List Attachment) : Embed :=
  ⟨rid, san, user, if images.isEmpty then none else some images.length, rid⟩

/-- Delivery (report.py lines 146-156): send the embed, then the files when
`images` is non-empty, then the success DM; a raise at either
moderation-channel send aborts the rest. Returns the performed sends and the
escaping exception, if any. -/
def runDelivery (fm : FailureModel) (rid : Nat) (san : List Char)
    (user : Option Nat) (images : List Attachment) : List Ev × Option Exc :=
  match fm.phase1Fail with
  | some e => ([], some e)
  | none =>
    if images.isEmpty then
      ([Ev.modEmbed (mkEmbed rid san user images),
        Ev.dmSend (DmNotice.success (successText images))], none)
    else
      match fm.phase2Fail with
      | some e => ([Ev.modEmbed (mkEmbed rid san user images)], some e)
      | none =>
        ([Ev.modEmbed (mkEmbed rid san user images),
          Ev.modFiles images,
          Ev.dmSend (DmNotice.success (successText images))], none)

def dmPermissionText : List Char :=
  "❌ I couldn\x27t send you a DM. Please check your privacy settings and try again.".toList

def genericFailureText : List Char :=
  "❌ An error occurred while processing your report. Please try again later.".toList

/-- The `except` clauses (report.py lines 158-169): `discord.Forbidden` gets
the DM-permission response with no logging; any other `Exception` is logged
with the reporter id and the error detail, then answered with the generic
failure response. -/
def handleExc (rid : Nat) (evs : List Ev) : Option Exc → List Ev
  | none => evs
  | some Exc.forbidden => evs ++ [Ev.respond dmPermissionText]
  | some (Exc.other d) => evs ++ [Ev.logError rid d, Ev.respond genericFailureText]

/-- The session part of `report` after the DM channel is open: send the
prompt, run the loop, and if the loop exited, sanitize-and-deliver; exceptions
from delivery are routed to the `except` clauses. -/
def reportSession (rid : Nat) (raw : List Char) (user : Option Nat)
    (trace : List LoopEvent) (fm : FailureModel) : List Ev :=
  if (runLoop [] trace).2.2 then
    handleExc rid
      (Ev.dmSend DmNotice.prompt ::
        ((runLoop [] trace).2.1 ++
          (runDelivery fm rid (sanitize_message raw) user (runLoop [] trace).1).1))
      (runDelivery fm rid (sanitize_message raw) user (runLoop [] trace).1).2
  else Ev.dmSend DmNotice.prompt :: (runLoop [] trace).2.1

def isPhase1 : Ev → Bool
  | Ev.modEmbed _ => true
  | _ => false

def isPhase2 : Ev → Bool
  | Ev.modFiles _ => true
  | _ => false

def isSuccessDm : Ev → Bool
  | Ev.dmSend (DmNotice.success _) => true
  | _ => false

def isLogEv : Ev → Bool
  | Ev.logError _ _ => true
  | _ => false

/-! ## Theorems -/

/-- C1: For every attachment item, the Attachment Filter accepts it if and
only if its filename's suffix, compared case-insensitively, is one of the
fixed allow-list (png, jpg, jpeg, gif); acceptance is a function of the item
alone, hence decided independently per item. -/
theorem c1_attachment_filter_iff (a : Attachment) :
    isAcceptable a = true ↔
      ∃ s, s <:+ a.filename ∧
        s.map Char.toLower ∈ ["png".toList, "jpg".toList, "jpeg".toList, "gif".toList] := by
  rw [isAcceptable]
  rw [List.any_eq_true]
  constructor
  · rintro ⟨ext, hmem, hsuf⟩
    rw [List.isSuffixOf_iff_suffix] at hsuf
    rw [List.isSuffix_map_iff] at hsuf
    obtain ⟨s, hs, rfl⟩ := hsuf
    exact ⟨s, hs, hmem⟩
  · rintro ⟨s, hs, hmem⟩
    refine ⟨s.map Char.toLower, hmem, ?_⟩
    rw [List.isSuffixOf_iff_suffix]
    exact hs.map Char.toLower

/-- C5: When a wait window elapses, the session closes: the collected
evidence is returned intact, a time-out notice is sent exactly when at least
one item was collected, the exit flag is set, and no later event is
processed. -/
theorem c5_timeout_close (images : List Attachment) (rest : List LoopEvent) :
    runLoop images (LoopEvent.timeout :: rest) =
      (images, if images.isEmpty then [] else [Ev.dmSend DmNotice.timeUp], true) := by
  by_cases h : images.isEmpty <;> simp [runLoop, h]

/-- C6: In every session state (any already-collected evidence), an input
whose text is case-insensitively equal to `done` closes the session
immediately: evidence unchanged, no notice, exit flag set, and the remaining
events are never processed. -/
theorem c6_done_closes (images : List Attachment) (m : Message) (rest : List LoopEvent)
    (h : m.content.map Char.toLower = "done".toList) :
    runLoop images (LoopEvent.msg m :: rest) = (images, [], true) := by
  simp [runLoop, h]

theorem c6_done_closes_witness :
    (Message.mk true true "DoNe".toList []).content.map Char.toLower = "done".toList ∧
    runLoop [Attachment.mk "x.png".toList]
        [LoopEvent.msg (Message.mk true true "DoNe".toList []), LoopEvent.timeout] =
      ([Attachment.mk "x.png".toList], [], true) :=
  ⟨by decide,
    c6_done_closes [Attachment.mk "x.png".toList] (Message.mk true true "DoNe".toList [])
      [LoopEvent.timeout] (by decide)⟩

/-- C10: A qualifying input that both carries attachments and whose text is
case-insensitively `done` qualifies via `check`, and the loop closes the
session immediately without appending any of its attachments: the `done`
test precedes attachment processing. -/
theorem c10_done_precedence (images : List Attachment) (m : Message) (rest : List LoopEvent)
    (ha : m.attachments ≠ []) (hc : m.content.map Char.toLower = "done".toList)
    (hr : m.authorIsReporter = true) (hd : m.channelIsDm = true) :
    check m = true ∧ runLoop images (LoopEvent.msg m :: rest) = (images, [], true) := by
  constructor
  · simp [check, hr, hd, hc]
  · simp [runLoop, hc]

theorem c10_done_precedence_witness :
    check (Message.mk true true "Done".toList [Attachment.mk "proof.png".toList]) = true ∧
    runLoop [] [LoopEvent.msg (Message.mk true true "Done".toList [Attachment.mk "proof.png".toList])] =
      ([], [], true) :=
  c10_done_precedence [] (Message.mk true true "Done".toList [Attachment.mk "proof.png".toList])
    [] (by decide) (by decide) (by decide) (by decide)

/-- C3: For every qualifying input with attachments that is not the `done`
token: when no attachment is acceptable, a rejection notice is emitted, the
collected evidence is unchanged, and the loop continues collecting; when at
least one is acceptable, exactly the acceptable items (in arrival order) are
appended and an acknowledgement stating their count is emitted, and the loop
continues collecting. -/
theorem c3_attachment_partition (images : List Attachment) (m : Message)
    (rest : List LoopEvent) (hq : check m = true)
    (hnd : ¬ m.content.map Char.toLower = "done".toList)
    (ha : m.attachments ≠ []) :
    (m.attachments.filter isAcceptable = [] →
      runLoop images (LoopEvent.msg m :: rest) =
        ((runLoop images rest).1,
          Ev.dmSend DmNotice.rejection :: (runLoop images rest).2.1,
          (runLoop images rest).2.2)) ∧
    (m.attachments.filter isAcceptable ≠ [] →
      runLoop images (LoopEvent.msg m :: rest) =
        ((runLoop (images ++ m.attachments.filter isAcceptable) rest).1,
          Ev.dmSend (DmNotice.ack (m.attachments.filter isAcceptable).length) ::
            (runLoop (images ++ m.attachments.filter isAcceptable) rest).2.1,
          (runLoop (images ++ m.attachments.filter isAcceptable) rest).2.2)) := by
  have hnd' : ¬ m.content.map Char.toLower = ['d', 'o', 'n', 'e'] := by simpa using hnd
  constructor
  · intro hv
    simp [runLoop, hnd', hv, ha]
  · intro hv
    simp [runLoop, hnd', hv, ha]

theorem c3_attachment_partition_witness :
    runLoop [Attachment.mk "old.png".toList]
        [LoopEvent.msg (Message.mk true true "evidence".toList
          [Attachment.mk "a.PNG".toList, Attachment.mk "b.txt".toList])] =
      ([Attachment.mk "old.png".toList, Attachment.mk "a.PNG".toList],
        [Ev.dmSend (DmNotice.ack 1)], false) :=
  (c3_attachment_partition [Attachment.mk "old.png".toList]
      (Message.mk true true "evidence".toList
        [Attachment.mk "a.PNG".toList, Attachment.mk "b.txt".toList])
      [] (by decide) (by decide) (by decide)).2 (by decide)

theorem runLoop_nil (images : List Attachment) : runLoop images [] = (images, [], false) := rfl

theorem runLoop_timeout_eq (images : List Attachment) (rest : List LoopEvent) :
    runLoop images (LoopEvent.timeout :: rest) =
      (images, if images.isEmpty then [] else [Ev.dmSend DmNotice.timeUp], true) := by
  by_cases h : images.isEmpty <;> simp [runLoop, h]

theorem runLoop_msg_done (images : List Attachment) (m : Message) (rest : List LoopEvent)
    (hd : m.content.map Char.toLower = "done".toList) :
    runLoop images (LoopEvent.msg m :: rest) = (images, [], true) := by
  simp [runLoop, hd]

theorem runLoop_msg_rej (images : List Attachment) (m : Message) (rest : List LoopEvent)
    (hd : ¬ m.content.map Char.toLower = "done".toList)
    (hcond : ((m.attachments.filter isAcceptable).isEmpty && !m.attachments.isEmpty) = true) :
    runLoop images (LoopEvent.msg m :: rest) =
      ((runLoop images rest).1,
        Ev.dmSend DmNotice.rejection :: (runLoop images rest).2.1,
        (runLoop images rest).2.2) := by
  have hd' : ¬ m.content.map Char.toLower = ['d', 'o', 'n', 'e'] := by simpa using hd
  simp only [runLoop, hd', if_false, hcond, if_true]
  simp
  exact hd'

theorem runLoop_msg_ack (images : List Attachment) (m : Message) (rest : List LoopEvent)
    (hd : ¬ m.content.map Char.toLower = "done".toList)
    (hcond : ((m.attachments.filter isAcceptable).isEmpty && !m.attachments.isEmpty) = false) :
    runLoop images (LoopEvent.msg m :: rest) =
      ((runLoop (images ++ m.attachments.filter isAcceptable) rest).1,
        Ev.dmSend (DmNotice.ack (m.attachments.filter isAcceptable).length) ::
          (runLoop (images ++ m.attachments.filter isAcceptable) rest).2.1,
        (runLoop (images ++ m.attachments.filter isAcceptable) rest).2.2) := by
  have hd' : ¬ m.content.map Char.toLower = ['d', 'o', 'n', 'e'] := by simpa using hd
  simp only [runLoop, hd', if_false, hcond, Bool.false_eq_true, if_true]
  simp
  exact hd'

theorem runLoop_evs_shape : ∀ (trace : List LoopEvent) (images : List Attachment),
    ∀ e ∈ (runLoop images trace).2.1,
      e = Ev.dmSend DmNotice.rejection ∨ (∃ n, e = Ev.dmSend (DmNotice.ack n)) ∨
        e = Ev.dmSend DmNotice.timeUp := by
  intro trace
  induction trace with
  | nil => intro images e he; simp [runLoop_nil] at he
  | cons ev rest ih =>
    intro images e he
    match ev with
    | LoopEvent.timeout =>
      rw [runLoop_timeout_eq] at he
      by_cases h : images.isEmpty <;> simp [h] at he
      simp [he]
    | LoopEvent.msg m =>
      by_cases hd : m.content.map Char.toLower = "done".toList
      · rw [runLoop_msg_done images m rest hd] at he
        simp at he
      · rcases Bool.eq_false_or_eq_true
          ((m.attachments.filter isAcceptable).isEmpty && !m.attachments.isEmpty) with hc | hc
        · rw [runLoop_msg_rej images m rest hd hc] at he
          rcases List.mem_cons.mp he with h1 | h1
          · left; exact h1
          · exact ih _ e h1
        · rw [runLoop_msg_ack images m rest hd hc] at he
          rcases List.mem_cons.mp he with h1 | h1
          · right; left; exact ⟨_, h1⟩
          · exact ih _ e h1

theorem runLoop_no_phase1 (images : List Attachment) (trace : List LoopEvent) :
    ((runLoop images trace).2.1).countP isPhase1 = 0 :=
  List.countP_eq_zero.mpr fun e he => by
    rcases runLoop_evs_shape trace images e he with h | ⟨n, h⟩ | h <;> subst h <;> simp [isPhase1]

theorem runLoop_no_phase2 (images : List Attachment) (trace : List LoopEvent) :
    ((runLoop images trace).2.1).countP isPhase2 = 0 :=
  List.countP_eq_zero.mpr fun e he => by
    rcases runLoop_evs_shape trace images e he with h | ⟨n, h⟩ | h <;> subst h <;> simp [isPhase2]

theorem runLoop_no_success (images : List Attachment) (trace : List LoopEvent) :
    ((runLoop images trace).2.1).countP isSuccessDm = 0 :=
  List.countP_eq_zero.mpr fun e he => by
    rcases runLoop_evs_shape trace images e he with h | ⟨n, h⟩ | h <;> subst h <;> simp [isSuccessDm]

/-- C2: Once the session loop has closed, the failure-free run performs
exactly one Phase-1 send (the embed, whose content field is the sanitized
free text, never the raw input), exactly one Phase-2 send if and only if the
final collected-evidence count is positive, and when Phase 2 occurs it comes
after Phase 1 (witnessed by the two sends forming a sublist in that order). -/
theorem c2_two_phase_delivery (rid : Nat) (raw : List Char) (user : Option Nat)
    (trace : List LoopEvent) (h : (runLoop [] trace).2.2 = true) :
    (reportSession rid raw user trace noFail).countP isPhase1 = 1 ∧
    ((reportSession rid raw user trace noFail).countP isPhase2 = 1 ↔
      0 < (runLoop [] trace).1.length) ∧
    (∀ em, Ev.modEmbed em ∈ reportSession rid raw user trace noFail →
      em.contentField = sanitize_message raw) ∧
    (0 < (runLoop [] trace).1.length →
      [Ev.modEmbed (mkEmbed rid (sanitize_message raw) user (runLoop [] trace).1),
        Ev.modFiles (runLoop [] trace).1].Sublist (reportSession rid raw user trace noFail)) := by
  by_cases himg : (runLoop [] trace).1.isEmpty
  · have hdel : runDelivery noFail rid (sanitize_message raw) user (runLoop [] trace).1 =
        ([Ev.modEmbed (mkEmbed rid (sanitize_message raw) user (runLoop [] trace).1),
          Ev.dmSend (DmNotice.success (successText (runLoop [] trace).1))], none) := by
      simp [runDelivery, noFail, himg]
    have hses : reportSession rid raw user trace noFail =
        Ev.dmSend DmNotice.prompt ::
          ((runLoop [] trace).2.1 ++
            [Ev.modEmbed (mkEmbed rid (sanitize_message raw) user (runLoop [] trace).1),
              Ev.dmSend (DmNotice.success (successText (runLoop [] trace).1))]) := by
      rw [reportSession, if_pos h, hdel]
      rfl
    rw [hses]
    have hlen : (runLoop [] trace).1.length = 0 := by
      rw [List.isEmpty_iff_length_eq_zero] at himg; exact himg
    refine ⟨?_, ?_, ?_, ?_⟩
    · simp [List.countP_cons, List.countP_append, runLoop_no_phase1, isPhase1]
    · simp [List.countP_cons, List.countP_append, runLoop_no_phase2, isPhase2, hlen]
    · intro em hm
      rcases List.mem_cons.mp hm with h1 | h1
      · cases h1
      · rcases List.mem_append.mp h1 with h2 | h2
        · rcases runLoop_evs_shape trace [] _ h2 with h3 | ⟨n, h3⟩ | h3 <;> cases h3
        · rcases List.mem_cons.mp h2 with h3 | h3
          · cases h3; simp [mkEmbed]
          · rcases List.mem_cons.mp h3 with h4 | h4
            · cases h4
            · cases h4
    · intro hpos
      omega
  · have hdel : runDelivery noFail rid (sanitize_message raw) user (runLoop [] trace).1 =
        ([Ev.modEmbed (mkEmbed rid (sanitize_message raw) user (runLoop [] trace).1),
          Ev.modFiles (runLoop [] trace).1,
          Ev.dmSend (DmNotice.success (successText (runLoop [] trace).1))], none) := by
      simp [runDelivery, noFail, himg]
    have hses : reportSession rid raw user trace noFail =
        Ev.dmSend DmNotice.prompt ::
          ((runLoop [] trace).2.1 ++
            [Ev.modEmbed (mkEmbed rid (sanitize_message raw) user (runLoop [] trace).1),
              Ev.modFiles (runLoop [] trace).1,
              Ev.dmSend (DmNotice.success (successText (runLoop [] trace).1))]) := by
      rw [reportSession, if_pos h, hdel]
      rfl
    rw [hses]
    have hlen : 0 < (runLoop [] trace).1.length := by
      have himg' : (runLoop [] trace).1 ≠ [] := by simpa using himg
      exact List.length_pos.mpr himg'
    refine ⟨?_, ?_, ?_, ?_⟩
    · simp [List.countP_cons, List.countP_append, runLoop_no_phase1, isPhase1]
    · simp [List.countP_cons, List.countP_append, runLoop_no_phase2, isPhase2, hlen]
    · intro em hm
      rcases List.mem_cons.mp hm with h1 | h1
      · cases h1
      · rcases List.mem_append.mp h1 with h2 | h2
        · rcases runLoop_evs_shape trace [] _ h2 with h3 | ⟨n, h3⟩ | h3 <;> cases h3
        · rcases List.mem_cons.mp h2 with h3 | h3
          · cases h3; simp [mkEmbed]
          · rcases List.mem_cons.mp h3 with h4 | h4
            · cases h4
            · rcases List.mem_cons.mp h4 with h5 | h5
              · cases h5
              · cases h5
    · intro _
      refine List.Sublist.cons _ ?_
      refine List.Sublist.trans ?_ (List.sublist_append_right _ _)
      exact List.sublist_append_left
        [Ev.modEmbed (mkEmbed rid (sanitize_message raw) user (runLoop [] trace).1),
          Ev.modFiles (runLoop [] trace).1]
        [Ev.dmSend (DmNotice.success (successText (runLoop [] trace).1))]

/-- C7 (amended): the success DM exists only when no attempted delivery
phase raised; when none raised it is the last delivery event, strictly after
every moderation-channel send; and with non-empty evidence its text contains
the decimal evidence count. (As stated the claim fails at zero evidence: see
the counterexample.) -/
theorem c7_success_after_phases (fm : FailureModel) (rid : Nat) (san : List Char)
    (user : Option Nat) (images : List Attachment) :
    ((∃ t, Ev.dmSend (DmNotice.success t) ∈ (runDelivery fm rid san user images).1) →
      (runDelivery fm rid san user images).2 = none) ∧
    ((runDelivery fm rid san user images).2 = none →
      ∃ pre, (runDelivery fm rid san user images).1 =
          pre ++ [Ev.dmSend (DmNotice.success (successText images))] ∧
        ∀ e ∈ pre, isPhase1 e = true ∨ isPhase2 e = true) ∧
    (images ≠ [] → (Nat.repr images.length).toList <:+: successText images) := by
  have hinf : images ≠ [] → (Nat.repr images.length).toList <:+: successText images := by
    intro hne
    have hie : images.isEmpty = false := by simpa using hne
    refine ⟨"✅ Your report has been sent to the moderators!\n".toList ++ "📎 Included ".toList,
      " image".toList ++ (if images.length != 1 then ['s'] else []), ?_⟩
    simp [successText, hie, List.append_assoc]
  rcases fm with ⟨p1, p2⟩
  cases p1 with
  | some e1 =>
    refine ⟨?_, ?_, hinf⟩
    · rintro ⟨t, ht⟩
      simp [runDelivery] at ht
    · intro hc
      simp [runDelivery] at hc
  | none =>
    by_cases hie : images.isEmpty
    · refine ⟨?_, ?_, hinf⟩
      · intro _
        simp [runDelivery, hie]
      · intro _
        refine ⟨[Ev.modEmbed (mkEmbed rid san user images)], by simp [runDelivery, hie], ?_⟩
        intro e he
        rcases List.mem_cons.mp he with h1 | h1
        · subst h1; left; rfl
        · cases h1
    · cases p2 with
      | some e2 =>
        refine ⟨?_, ?_, hinf⟩
        · rintro ⟨t, ht⟩
          simp [runDelivery, hie] at ht
        · intro hc
          simp [runDelivery, hie] at hc
      | none =>
        refine ⟨?_, ?_, hinf⟩
        · intro _
          simp [runDelivery, hie]
        · intro _
          refine ⟨[Ev.modEmbed (mkEmbed rid san user images), Ev.modFiles images],
            by simp [runDelivery, hie], ?_⟩
          intro e he
          rcases List.mem_cons.mp he with h1 | h1
          · subst h1; left; rfl
          · rcases List.mem_cons.mp h1 with h2 | h2
            · subst h2; right; rfl
            · cases h2

/-- C7 counterexample: in a zero-evidence session the delivery succeeds and
the success DM is sent, but its text does not contain the evidence count
(the decimal rendering of 0): the claim's "includes the evidence count" part
fails. -/
theorem c7_zero_evidence_counterexample :
    Ev.dmSend (DmNotice.success (successText [])) ∈ (runDelivery noFail 1 [] none []).1 ∧
    (runDelivery noFail 1 [] none []).2 = none ∧
    ¬ (Nat.repr (List.length ([] : List Attachment))).toList <:+: successText [] := by
  decide

theorem runDelivery_err_evs (fm : FailureModel) (rid : Nat) (san : List Char)
    (user : Option Nat) (images : List Attachment) (e : Exc)
    (h : (runDelivery fm rid san user images).2 = some e) :
    (runDelivery fm rid san user images).1 = [] ∨
    (runDelivery fm rid san user images).1 = [Ev.modEmbed (mkEmbed rid san user images)] := by
  rcases fm with ⟨p1, p2⟩
  cases p1 with
  | some e1 => left; simp [runDelivery]
  | none =>
    by_cases hie : images.isEmpty
    · simp [runDelivery, hie] at h
    · cases p2 with
      | some e2 => right; simp [runDelivery, hie]
      | none => simp [runDelivery, hie] at h

/-- C4 (amended): when a delivery send raises an exception other than
Forbidden, the session ends with the error logged (reporter id and detail)
followed by the one generic failure response; no send is retried (each phase
occurs at most once) and no success DM is sent. -/
theorem c4_nonpermission_error_generic (rid : Nat) (raw : List Char) (user : Option Nat)
    (trace : List LoopEvent) (fm : FailureModel) (d : List Char)
    (hclosed : (runLoop [] trace).2.2 = true)
    (hexc : (runDelivery fm rid (sanitize_message raw) user (runLoop [] trace).1).2 =
      some (Exc.other d)) :
    (∃ pre, reportSession rid raw user trace fm =
        pre ++ [Ev.logError rid d, Ev.respond genericFailureText]) ∧
    (reportSession rid raw user trace fm).countP isPhase1 ≤ 1 ∧
    (reportSession rid raw user trace fm).countP isPhase2 ≤ 1 ∧
    (reportSession rid raw user trace fm).countP isSuccessDm = 0 := by
  have hses : reportSession rid raw user trace fm =
      (Ev.dmSend DmNotice.prompt ::
        ((runLoop [] trace).2.1 ++
          (runDelivery fm rid (sanitize_message raw) user (runLoop [] trace).1).1)) ++
        [Ev.logError rid d, Ev.respond genericFailureText] := by
    rw [reportSession, if_pos hclosed, hexc]
    rfl
  rcases runDelivery_err_evs fm rid (sanitize_message raw) user (runLoop [] trace).1
      (Exc.other d) hexc with hdev | hdev <;>
    rw [hses, hdev] <;>
    refine ⟨⟨_, rfl⟩, ?_, ?_, ?_⟩ <;>
    simp [List.countP_cons, List.countP_append, runLoop_no_phase1, runLoop_no_phase2,
      runLoop_no_success, isPhase1, isPhase2, isSuccessDm]

/-- C4 counterexample: when the Phase-1 send raises Forbidden, nothing is
logged and the reporter receives the DM-permission message, not the generic
failure message: the claim as stated fails for this delivery error. -/
theorem c4_forbidden_counterexample :
    (reportSession 7 [] none [LoopEvent.msg (Message.mk true true "done".toList [])]
        (FailureModel.mk (some Exc.forbidden) none)).countP isLogEv = 0 ∧
    Ev.respond dmPermissionText ∈
      reportSession 7 [] none [LoopEvent.msg (Message.mk true true "done".toList [])]
        (FailureModel.mk (some Exc.forbidden) none) ∧
    ¬ Ev.respond genericFailureText ∈
      reportSession 7 [] none [LoopEvent.msg (Message.mk true true "done".toList [])]
        (FailureModel.mk (some Exc.forbidden) none) := by
  decide

theorem c2_two_phase_delivery_witness :
    (runLoop [] [LoopEvent.msg (Message.mk true true "pics".toList [Attachment.mk "a.png".toList]),
        LoopEvent.msg (Message.mk true true "done".toList [])]).2.2 = true ∧
    ((reportSession 5 "hello".toList none
          [LoopEvent.msg (Message.mk true true "pics".toList [Attachment.mk "a.png".toList]),
            LoopEvent.msg (Message.mk true true "done".toList [])] noFail).countP isPhase1 = 1 ∧
      ((reportSession 5 "hello".toList none
            [LoopEvent.msg (Message.mk true true "pics".toList [Attachment.mk "a.png".toList]),
              LoopEvent.msg (Message.mk true true "done".toList [])] noFail).countP isPhase2 = 1 ↔
        0 < (runLoop []
            [LoopEvent.msg (Message.mk true true "pics".toList [Attachment.mk "a.png".toList]),
              LoopEvent.msg (Message.mk true true "done".toList [])]).1.length) ∧
      (∀ em, Ev.modEmbed em ∈ reportSession 5 "hello".toList none
            [LoopEvent.msg (Message.mk true true "pics".toList [Attachment.mk "a.png".toList]),
              LoopEvent.msg (Message.mk true true "done".toList [])] noFail →
        em.contentField = sanitize_message "hello".toList) ∧
      (0 < (runLoop []
            [LoopEvent.msg (Message.mk true true "pics".toList [Attachment.mk "a.png".toList]),
              LoopEvent.msg (Message.mk true true "done".toList [])]).1.length →
        [Ev.modEmbed (mkEmbed 5 (sanitize_message "hello".toList) none
            (runLoop []
              [LoopEvent.msg (Message.mk true true "pics".toList [Attachment.mk "a.png".toList]),
                LoopEvent.msg (Message.mk true true "done".toList [])]).1),
          Ev.modFiles (runLoop []
            [LoopEvent.msg (Message.mk true true "pics".toList [Attachment.mk "a.png".toList]),
              LoopEvent.msg (Message.mk true true "done".toList [])]).1].Sublist
          (reportSession 5 "hello".toList none
            [LoopEvent.msg (Message.mk true true "pics".toList [Attachment.mk "a.png".toList]),
              LoopEvent.msg (Message.mk true true "done".toList [])] noFail))) :=
  ⟨by decide,
    c2_two_phase_delivery 5 "hello".toList none
      [LoopEvent.msg (Message.mk true true "pics".toList [Attachment.mk "a.png".toList]),
        LoopEvent.msg (Message.mk true true "done".toList [])] (by decide)⟩

theorem c7_success_after_phases_witness :
    ((∃ pre, (runDelivery noFail 2 [] none [Attachment.mk "a.png".toList]).1 =
        pre ++ [Ev.dmSend (DmNotice.success (successText [Attachment.mk "a.png".toList]))] ∧
      ∀ e ∈ pre, isPhase1 e = true ∨ isPhase2 e = true) ∧
    (Nat.repr (List.length [Attachment.mk "a.png".toList])).toList <:+:
      successText [Attachment.mk "a.png".toList]) :=
  ⟨(c7_success_after_phases noFail 2 [] none [Attachment.mk "a.png".toList]).2.1 (by decide),
    (c7_success_after_phases noFail 2 [] none [Attachment.mk "a.png".toList]).2.2 (by decide)⟩

theorem c4_nonpermission_error_generic_witness :
    (runLoop [] [LoopEvent.msg (Message.mk true true "done".toList [])]).2.2 = true ∧
    ((∃ pre, reportSession 3 "x".toList none
          [LoopEvent.msg (Message.mk true true "done".toList [])]
          (FailureModel.mk (some (Exc.other "boom".toList)) none) =
        pre ++ [Ev.logError 3 "boom".toList, Ev.respond genericFailureText]) ∧
      (reportSession 3 "x".toList none
          [LoopEvent.msg (Message.mk true true "done".toList [])]
          (FailureModel.mk (some (Exc.other "boom".toList)) none)).countP isPhase1 ≤ 1 ∧
      (reportSession 3 "x".toList none
          [LoopEvent.msg (Message.mk true true "done".toList [])]
          (FailureModel.mk (some (Exc.other "boom".toList)) none)).countP isPhase2 ≤ 1 ∧
      (reportSession 3 "x".toList none
          [LoopEvent.msg (Message.mk true true "done".toList [])]
          (FailureModel.mk (some (Exc.other "boom".toList)) none)).countP isSuccessDm = 0) :=
  ⟨by decide,
    c4_nonpermission_error_generic 3 "x".toList none
      [LoopEvent.msg (Message.mk true true "done".toList [])]
      (FailureModel.mk (some (Exc.other "boom".toList)) none) "boom".toList
      (by decide) (by decide)⟩

theorem replaceCI_nil (pat repl : List Char) : replaceCI pat repl [] = [] := by
  rw [replaceCI]

theorem replaceCI_cons (pat repl : List Char) (c : Char) (rest : List Char) :
    replaceCI pat repl (c :: rest) =
      if ((c :: rest).take pat.length).map Char.toLower = pat then
        repl ++ replaceCI pat repl (rest.drop (pat.length - 1))
      else c :: replaceCI pat repl rest := by
  rw [replaceCI]

theorem sanitizeSpec_nil : sanitizeSpec [] = [] := by
  rw [sanitizeSpec]

theorem sanitizeSpec_cons (c : Char) (rest : List Char) :
    sanitizeSpec (c :: rest) =
      if ((c :: rest).take 9).map Char.toLower = patEveryone then
        repEveryone ++ sanitizeSpec (rest.drop 8)
      else if ((c :: rest).take 5).map Char.toLower = patHere then
        repHere ++ sanitizeSpec (rest.drop 4)
      else c :: sanitizeSpec rest := by
  rw [sanitizeSpec]

theorem replaceCI_append_no_at (p r : List Char) :
    ∀ (a b : List Char), (∀ x ∈ a, ¬ x.toLower = '@') →
      replaceCI ('@' :: p) r (a ++ b) = a ++ replaceCI ('@' :: p) r b := by
  intro a
  induction a with
  | nil => intro b _; simp
  | cons x a' ih =>
    intro b hx
    have hxa : ¬ x.toLower = '@' := hx x (List.mem_cons_self x a')
    have hcond : ¬ (((x :: (a' ++ b)).take ('@' :: p).length).map Char.toLower = '@' :: p) := by
      intro hc
      rw [List.length_cons, List.take_succ_cons, List.map_cons] at hc
      exact hxa (List.cons_eq_cons.mp hc).1
    rw [List.cons_append, replaceCI_cons, if_neg hcond,
      ih b fun y hy => hx y (List.mem_cons_of_mem x hy)]
    rfl

theorem take_lower_replaceCI (p r : List Char) :
    ∀ (w : List Char), (∀ ch ∈ w, ¬ ch = '[') →
    ∀ l, ((replaceCI ('@' :: p) ('[' :: r) l).take w.length).map Char.toLower = w →
      (l.take w.length).map Char.toLower = w := by
  intro w
  induction w with
  | nil => intro _ l _; simp
  | cons a w' ih =>
    intro hw l h
    cases l with
    | nil => rw [replaceCI_nil] at h; simp at h
    | cons c rest =>
      by_cases hc : ((c :: rest).take ('@' :: p).length).map Char.toLower = '@' :: p
      · rw [replaceCI_cons, if_pos hc, List.cons_append, List.length_cons,
          List.take_succ_cons, List.map_cons] at h
        have ha : a = '[' := ((List.cons_eq_cons.mp h).1).symm
        exact absurd ha (hw a (List.mem_cons_self a w'))
      · rw [replaceCI_cons, if_neg hc, List.length_cons, List.take_succ_cons,
          List.map_cons] at h
        obtain ⟨h1, h2⟩ := List.cons_eq_cons.mp h
        have h3 := ih (fun ch hch => hw ch (List.mem_cons_of_mem a hch)) rest h2
        rw [List.length_cons, List.take_succ_cons, List.map_cons, h1, h3]

theorem sanitizeSpec_append_no_at :
    ∀ (a b : List Char), (∀ x ∈ a, ¬ x.toLower = '@') →
      sanitizeSpec (a ++ b) = a ++ sanitizeSpec b := by
  intro a
  induction a with
  | nil => intro b _; simp
  | cons x a' ih =>
    intro b hx
    have hxa : ¬ x.toLower = '@' := hx x (List.mem_cons_self x a')
    have hcond1 : ¬ (((x :: (a' ++ b)).take 9).map Char.toLower = patEveryone) := by
      intro hc
      rw [show (9 : Nat) = 8 + 1 from rfl, List.take_succ_cons, List.map_cons,
        show patEveryone = '@' :: "everyone".toList from rfl] at hc
      exact hxa (List.cons_eq_cons.mp hc).1
    have hcond2 : ¬ (((x :: (a' ++ b)).take 5).map Char.toLower = patHere) := by
      intro hc
      rw [show (5 : Nat) = 4 + 1 from rfl, List.take_succ_cons, List.map_cons,
        show patHere = '@' :: "here".toList from rfl] at hc
      exact hxa (List.cons_eq_cons.mp hc).1
    rw [List.cons_append, sanitizeSpec_cons, if_neg hcond1, if_neg hcond2,
      ih b fun y hy => hx y (List.mem_cons_of_mem x hy)]
    rfl

theorem take_lower_sanitizeSpec :
    ∀ (w : List Char), (∀ ch ∈ w, ¬ ch = '[') →
    ∀ l, ((sanitizeSpec l).take w.length).map Char.toLower = w →
      (l.take w.length).map Char.toLower = w := by
  intro w
  induction w with
  | nil => intro _ l _; simp
  | cons a w' ih =>
    intro hw l h
    cases l with
    | nil => rw [sanitizeSpec_nil] at h; simp at h
    | cons c rest =>
      by_cases hE : ((c :: rest).take 9).map Char.toLower = patEveryone
      · rw [sanitizeSpec_cons, if_pos hE,
          show repEveryone = '[' :: "at everyone]".toList from rfl, List.cons_append,
          List.length_cons, List.take_succ_cons, List.map_cons] at h
        have ha : a = '[' := ((List.cons_eq_cons.mp h).1).symm
        exact absurd ha (hw a (List.mem_cons_self a w'))
      · by_cases hH : ((c :: rest).take 5).map Char.toLower = patHere
        · rw [sanitizeSpec_cons, if_neg hE, if_pos hH,
            show repHere = '[' :: "at here]".toList from rfl, List.cons_append,
            List.length_cons, List.take_succ_cons, List.map_cons] at h
          have ha : a = '[' := ((List.cons_eq_cons.mp h).1).symm
          exact absurd ha (hw a (List.mem_cons_self a w'))
        · rw [sanitizeSpec_cons, if_neg hE, if_neg hH, List.length_cons,
            List.take_succ_cons, List.map_cons] at h
          obtain ⟨h1, h2⟩ := List.cons_eq_cons.mp h
          have h3 := ih (fun ch hch => hw ch (List.mem_cons_of_mem a hch)) rest h2
          rw [List.length_cons, List.take_succ_cons, List.map_cons, h1, h3]

theorem replaceE_append (a b : List Char) (h : ∀ x ∈ a, ¬ x.toLower = '@') :
    replaceCI patEveryone repEveryone (a ++ b) = a ++ replaceCI patEveryone repEveryone b :=
  replaceCI_append_no_at "everyone".toList repEveryone a b h

theorem replaceH_append (a b : List Char) (h : ∀ x ∈ a, ¬ x.toLower = '@') :
    replaceCI patHere repHere (a ++ b) = a ++ replaceCI patHere repHere b :=
  replaceCI_append_no_at "here".toList repHere a b h

theorem take_lower_replaceE (w : List Char) (hw : ∀ ch ∈ w, ¬ ch = '[') (l : List Char)
    (h : ((replaceCI patEveryone repEveryone l).take w.length).map Char.toLower = w) :
    (l.take w.length).map Char.toLower = w :=
  take_lower_replaceCI "everyone".toList "at everyone]".toList w hw l h

theorem sanEq_aux : ∀ (n : Nat) (l : List Char), l.length ≤ n →
    replaceCI patHere repHere (replaceCI patEveryone repEveryone l) = sanitizeSpec l := by
  intro n
  induction n with
  | zero =>
    intro l hl
    have hnil : l = [] := List.length_eq_zero.mp (Nat.le_zero.mp hl)
    subst hnil
    rw [replaceCI_nil, replaceCI_nil, sanitizeSpec_nil]
  | succ n ih =>
    intro l hl
    cases l with
    | nil => rw [replaceCI_nil, replaceCI_nil, sanitizeSpec_nil]
    | cons c rest =>
      have hrest : rest.length ≤ n := by simpa using hl
      by_cases hE : ((c :: rest).take 9).map Char.toLower = patEveryone
      · have hE' : ((c :: rest).take patEveryone.length).map Char.toLower = patEveryone := hE
        have h1 : replaceCI patEveryone repEveryone (c :: rest) =
            repEveryone ++ replaceCI patEveryone repEveryone (rest.drop 8) := by
          rw [replaceCI_cons, if_pos hE']
          rfl
        rw [h1, replaceH_append _ _ (by decide),
          ih (rest.drop 8) (by simp only [List.length_drop]; omega),
          sanitizeSpec_cons, if_pos hE]
      · have hEne : ¬ ((c :: rest).take patEveryone.length).map Char.toLower = patEveryone := hE
        have e1 : replaceCI patEveryone repEveryone (c :: rest) =
            c :: replaceCI patEveryone repEveryone rest := by
          rw [replaceCI_cons, if_neg hEne]
        by_cases hH : ((c :: rest).take 5).map Char.toLower = patHere
        · have hH2 : Char.toLower c :: (rest.take 4).map Char.toLower =
              '@' :: "here".toList := by
            rw [← List.map_cons, ← List.take_succ_cons,
              ← show patHere = '@' :: "here".toList from rfl]
            exact hH
          obtain ⟨hca, hr4⟩ := List.cons_eq_cons.mp hH2
          have hlen4 : (rest.take 4).length = 4 := by
            have hc4 := congrArg List.length hr4
            simpa using hc4
          have hno : ∀ x ∈ rest.take 4, ¬ x.toLower = '@' := by
            intro x hxm heq
            have hmem : x.toLower ∈ (rest.take 4).map Char.toLower :=
              List.mem_map_of_mem Char.toLower hxm
            rw [hr4, heq] at hmem
            exact absurd hmem (by decide)
          have e2 : replaceCI patEveryone repEveryone rest =
              rest.take 4 ++ replaceCI patEveryone repEveryone (rest.drop 4) := by
            conv_lhs => rw [← List.take_append_drop 4 rest]
            exact replaceE_append _ _ hno
          rw [e1, e2]
          have hcond : (((c :: (rest.take 4 ++
              replaceCI patEveryone repEveryone (rest.drop 4))).take patHere.length).map
                Char.toLower) = patHere := by
            rw [show patHere.length = 5 from rfl, show (5 : Nat) = 4 + 1 from rfl,
              List.take_succ_cons, List.take_left' hlen4, List.map_cons, hca, hr4]
            rfl
          rw [replaceCI_cons, if_pos hcond]
          have hdrop : (rest.take 4 ++
              replaceCI patEveryone repEveryone (rest.drop 4)).drop (patHere.length - 1) =
              replaceCI patEveryone repEveryone (rest.drop 4) := by
            have hdl := List.drop_left (rest.take 4)
              (replaceCI patEveryone repEveryone (rest.drop 4))
            rw [hlen4] at hdl
            exact hdl
          rw [hdrop, ih (rest.drop 4) (by simp only [List.length_drop]; omega),
            sanitizeSpec_cons, if_neg hE, if_pos hH]
        · rw [e1]
          have hcond : ¬ (((c :: replaceCI patEveryone repEveryone rest).take
              patHere.length).map Char.toLower = patHere) := by
            intro hc
            rw [show patHere.length = 5 from rfl, show (5 : Nat) = 4 + 1 from rfl,
              List.take_succ_cons, List.map_cons,
              show patHere = '@' :: "here".toList from rfl] at hc
            obtain ⟨h1, h2⟩ := List.cons_eq_cons.mp hc
            have h3 : (rest.take 4).map Char.toLower = "here".toList :=
              take_lower_replaceE "here".toList (by decide) rest h2
            apply hH
            rw [show (5 : Nat) = 4 + 1 from rfl, List.take_succ_cons, List.map_cons, h1, h3]
            rfl
          rw [replaceCI_cons, if_neg hcond, ih rest hrest,
            sanitizeSpec_cons, if_neg hE, if_neg hH]

theorem sanitize_eq_spec (l : List Char) : sanitize_message l = sanitizeSpec l := by
  rw [sanitize_message]
  exact sanEq_aux l.length l le_rfl

theorem sanitizeSpec_idem_aux : ∀ (n : Nat) (l : List Char), l.length ≤ n →
    sanitizeSpec (sanitizeSpec l) = sanitizeSpec l := by
  intro n
  induction n with
  | zero =>
    intro l hl
    have hnil : l = [] := List.length_eq_zero.mp (Nat.le_zero.mp hl)
    subst hnil
    rw [sanitizeSpec_nil, sanitizeSpec_nil]
  | succ n ih =>
    intro l hl
    cases l with
    | nil => rw [sanitizeSpec_nil, sanitizeSpec_nil]
    | cons c rest =>
      have hrest : rest.length ≤ n := by simpa using hl
      by_cases hE : ((c :: rest).take 9).map Char.toLower = patEveryone
      · rw [sanitizeSpec_cons, if_pos hE, sanitizeSpec_append_no_at _ _ (by decide),
          ih (rest.drop 8) (by simp only [List.length_drop]; omega)]
      · by_cases hH : ((c :: rest).take 5).map Char.toLower = patHere
        · rw [sanitizeSpec_cons, if_neg hE, if_pos hH,
            sanitizeSpec_append_no_at _ _ (by decide),
            ih (rest.drop 4) (by simp only [List.length_drop]; omega)]
        · rw [sanitizeSpec_cons, if_neg hE, if_neg hH]
          have hE2 : ¬ ((c :: sanitizeSpec rest).take 9).map Char.toLower = patEveryone := by
            intro hc
            rw [show (9 : Nat) = 8 + 1 from rfl, List.take_succ_cons, List.map_cons,
              show patEveryone = '@' :: "everyone".toList from rfl] at hc
            obtain ⟨h1, h2⟩ := List.cons_eq_cons.mp hc
            have h3 : (rest.take 8).map Char.toLower = "everyone".toList :=
              take_lower_sanitizeSpec "everyone".toList (by decide) rest h2
            apply hE
            rw [show (9 : Nat) = 8 + 1 from rfl, List.take_succ_cons, List.map_cons, h1, h3]
            rfl
          have hH2 : ¬ ((c :: sanitizeSpec rest).take 5).map Char.toLower = patHere := by
            intro hc
            rw [show (5 : Nat) = 4 + 1 from rfl, List.take_succ_cons, List.map_cons,
              show patHere = '@' :: "here".toList from rfl] at hc
            obtain ⟨h1, h2⟩ := List.cons_eq_cons.mp hc
            have h3 : (rest.take 4).map Char.toLower = "here".toList :=
              take_lower_sanitizeSpec "here".toList (by decide) rest h2
            apply hH
            rw [show (5 : Nat) = 4 + 1 from rfl, List.take_succ_cons, List.map_cons, h1, h3]
            rfl
          rw [sanitizeSpec_cons, if_neg hE2, if_neg hH2, ih rest hrest]

theorem startsWith_decomp_iff (tok l : List Char) :
    (∃ p s, l = p ++ s ∧ p.map Char.toLower = tok) ↔
      (l.take tok.length).map Char.toLower = tok := by
  constructor
  · rintro ⟨p, s, rfl, hp⟩
    have hlen : p.length = tok.length := by rw [← hp]; simp
    rw [List.take_left' hlen, hp]
  · intro h
    exact ⟨l.take tok.length, l.drop tok.length, (List.take_append_drop _ _).symm, h⟩

theorem specSanitizes_spec_aux : ∀ (n : Nat) (l : List Char), l.length ≤ n →
    SpecSanitizes l (sanitizeSpec l) := by
  intro n
  induction n with
  | zero =>
    intro l hl
    have hnil : l = [] := List.length_eq_zero.mp (Nat.le_zero.mp hl)
    subst hnil
    rw [sanitizeSpec_nil]
    exact SpecSanitizes.nil
  | succ n ih =>
    intro l hl
    cases l with
    | nil =>
      rw [sanitizeSpec_nil]
      exact SpecSanitizes.nil
    | cons c rest =>
      have hrest : rest.length ≤ n := by simpa using hl
      by_cases hE : ((c :: rest).take 9).map Char.toLower = patEveryone
      · rw [sanitizeSpec_cons, if_pos hE]
        have hsplit : c :: rest = (c :: rest).take 9 ++ rest.drop 8 := by
          have := (List.take_append_drop 9 (c :: rest)).symm
          rwa [show (9 : Nat) = 8 + 1 from rfl, List.drop_succ_cons] at this
        rw [hsplit]
        exact SpecSanitizes.replaceEveryone ((c :: rest).take 9) (rest.drop 8)
          (sanitizeSpec (rest.drop 8)) hE
          (ih (rest.drop 8) (by simp only [List.length_drop]; omega))
      · by_cases hH : ((c :: rest).take 5).map Char.toLower = patHere
        · rw [sanitizeSpec_cons, if_neg hE, if_pos hH]
          have hsplit : c :: rest = (c :: rest).take 5 ++ rest.drop 4 := by
            have := (List.take_append_drop 5 (c :: rest)).symm
            rwa [show (5 : Nat) = 4 + 1 from rfl, List.drop_succ_cons] at this
          rw [hsplit]
          exact SpecSanitizes.replaceHere ((c :: rest).take 5) (rest.drop 4)
            (sanitizeSpec (rest.drop 4)) hH
            (ih (rest.drop 4) (by simp only [List.length_drop]; omega))
        · rw [sanitizeSpec_cons, if_neg hE, if_neg hH]
          refine SpecSanitizes.keep c rest (sanitizeSpec rest) ?_ ?_ (ih rest hrest)
          · rw [startsWith_decomp_iff]
            exact hE
          · rw [startsWith_decomp_iff]
            exact hH

/-- C8: `sanitize_message` realizes the sanitizer contract: its output
replaces every case-insensitive occurrence of `@everyone` with
`[at everyone]` and of `@here` with `[at here]`, and leaves every other
character byte-identical. -/
theorem c8_sanitize_replaces_all (l : List Char) :
    SpecSanitizes l (sanitize_message l) := by
  rw [sanitize_eq_spec]
  exact specSanitizes_spec_aux l.length l le_rfl

/-- C9: `sanitize_message` is idempotent. -/
theorem c9_sanitize_idempotent (l : List Char) :
    sanitize_message (sanitize_message l) = sanitize_message l := by
  rw [sanitize_eq_spec (sanitize_message l), sanitize_eq_spec l]
  exact sanitizeSpec_idem_aux l.length l le_rfl
